import Mathlib

/-!
# sound_generator: the synthesis core of `main.cpp`

A shallow embedding of `adjustSound` and of the buffer-filling part of
`playSound`, and the properties of them that the specification states.

Modelling conventions.

* `float` values are exact rationals (`ℚ`): every `+ - * /` of the source is the
  exact operation, so the development speaks about the algorithm in exact
  arithmetic and not about IEEE rounding.
* `int` values are integers (`Int`); the conversion `(int)x` is truncation toward
  zero (`truncToInt`).  The frame counts that occur stay far below `2^31`, and
  `int` arithmetic is not wrapped.  The conversion `(int16_t)x` is truncation
  followed by an explicit reduction to 16 bits, and the conversion of an `int`
  to `UINT32` is an explicit reduction modulo `2^32`.
* The three static arrays `signal`, `envelope`, `envelopedSignal` are maps from
  indices to samples.  A store `a[i] = v` is the function `store`, which checks
  `i < maxBufferSize`: the source has no such check, and a store past the end of
  a static array is undefined behaviour, which the model reports as a `Fault`
  naming the array and the index of the offending store.  A load `a[i]` is the
  application `a i`; every index the source loads from lies below `numFrames`.
* A `for` loop whose counter runs from `0` up to a bound fixed before the loop
  is a structural recursion on the number of iterations still to run.
* `sinf`, `rand` and `RAND_MAX` come from the C library and are parameters
  (`Libc`); `rand` is the stream of values the successive calls of `rand()`
  return, and the memory records how many calls have been made.
-/

namespace SoundGenerator

/-! ## Constants and data model -/

/-- The macro `#define PI 3.14159265359f` (line 16). -/
def PI : ℚ := 3.14159265359

/-- The macro `#define TWOPI (2.0f*PI)` (line 17). -/
def TWOPI : ℚ := 2.0 * PI

/-- The constant `static const int maxBufferDurationSec = 4;` (line 24). -/
def maxBufferDurationSec : Int := 4

/-- The constant `static const int samplesPerSec = 48000;` (line 25). -/
def samplesPerSec : Int := 48000

/-- The constant `static const int maxBufferSize = maxBufferDurationSec * samplesPerSec;`
(line 26), the number of floats in each of the three static arrays. -/
def maxBufferSize : Int := maxBufferDurationSec * samplesPerSec

/-- The type `enum WaveType` (line 32). -/
inductive WaveType where
  | WAVETYPE_SIN
  | WAVETYPE_SQUARE
  | WAVETYPE_SAW
  | WAVETYPE_TRIANGLE
  | WAVETYPE_NOISE
  deriving DecidableEq, Repr

/-- The C library functions and constant that `adjustSound` uses. `rand n` is the
value returned by the `n`-th call of `rand()` since the process started (the
program never calls `srand`). -/
structure Libc where
  sinf : ℚ → ℚ
  rand : Nat → Int
  RAND_MAX : Int

/-- The user-adjustable globals of `main.cpp` (lines 33-40). -/
structure Params where
  waveType : WaveType
  attackSec : ℚ
  decaySec : ℚ
  sustainSec : ℚ
  releaseSec : ℚ
  sustainLevel : ℚ
  frequency : ℚ

/-- The globals that `adjustSound` writes (lines 28-30 and 42), and the number of
`rand()` calls made so far. -/
structure Mem where
  signal : Nat → ℚ
  envelope : Nat → ℚ
  envelopedSignal : Nat → ℚ
  numFrames : Int
  randCalls : Nat

/-- The arrays a store can go to. `device` is the playback buffer that
`GetBuffer` hands to `playSound`. -/
inductive Buffer where
  | signal
  | envelope
  | envelopedSignal
  | device
  deriving DecidableEq, Repr

/-- A store outside an array: which array, and the index of the store. -/
structure Fault where
  buffer : Buffer
  index : Nat
  deriving DecidableEq, Repr

/-- The conversion `(int)x` of a `float`: truncation toward zero. -/
def truncToInt (x : ℚ) : Int := if 0 ≤ x then ⌊x⌋ else ⌈x⌉

/-- The store `a[i] = v` into one of the static arrays of `maxBufferSize` floats. -/
def store (b : Buffer) (a : Nat → ℚ) (i : Nat) (v : ℚ) : Except Fault (Nat → ℚ) :=
  if (i : Int) < maxBufferSize then Except.ok (Function.update a i v)
  else Except.error ⟨b, i⟩

/-! ## adjustSound -/

/-- Lines 45-46: `(int)(duration*samplesPerSec)` with
`duration = attackSec + decaySec + sustainSec + releaseSec`. -/
def numFramesOf (p : Params) : Int :=
  let duration := p.attackSec + p.decaySec + p.sustainSec + p.releaseSec
  truncToInt (duration * samplesPerSec)

/-- Line 48: `float incr = TWOPI*frequency / samplesPerSec;` -/
def incrOf (p : Params) : ℚ := TWOPI * p.frequency / samplesPerSec

/-- Lines 53-71: the `switch (waveType)` that computes `val` from `phase`. The
second component is the number of `rand()` calls made so far, which only the
noise case advances. -/
def waveValue (L : Libc) (w : WaveType) (phase : ℚ) (randCalls : Nat) : ℚ × Nat :=
  match w with
  | WaveType.WAVETYPE_SIN => (L.sinf phase, randCalls)
  | WaveType.WAVETYPE_SQUARE => (if phase ≤ PI then 1.0 else -1.0, randCalls)
  | WaveType.WAVETYPE_SAW => (2.0 * (phase / TWOPI) - 1.0, randCalls)
  | WaveType.WAVETYPE_TRIANGLE =>
      let val := 2.0 * (phase / TWOPI) - 1.0
      let val := if val < 0 then -val else val
      (2.0 * (val - 0.5), randCalls)
  | WaveType.WAVETYPE_NOISE =>
      (2.0 * ((L.rand randCalls : ℚ) / (L.RAND_MAX : ℚ)) - 1.0, randCalls + 1)

/-- Lines 74-75: `phase += incr; if (phase >= TWOPI) phase -= TWOPI;` -/
def nextPhase (incr phase : ℚ) : ℚ :=
  let phase := phase + incr
  if phase ≥ TWOPI then phase - TWOPI else phase

/-- Lines 51-76: the loop `for (int sample = 0; sample < numFrames; ++sample)`.
The first argument is the number of iterations still to run,
`numFrames - sample`. -/
def signalLoop (L : Libc) (w : WaveType) (incr : ℚ) :
    Nat → Nat → ℚ → Mem → Except Fault Mem
  | 0, _, _, m => Except.ok m
  | n + 1, sample, phase, m => do
      let r := waveValue L w phase m.randCalls
      let s ← store Buffer.signal m.signal sample r.1
      signalLoop L w incr n (sample + 1) (nextPhase incr phase)
        { m with signal := s, randCalls := r.2 }

/-- Line 78: `(int)(attackSec*samplesPerSec)`. -/
def attackFramesOf (p : Params) : Int := truncToInt (p.attackSec * samplesPerSec)

/-- Line 79: `(int)(decaySec*samplesPerSec)`. -/
def decayFramesOf (p : Params) : Int := truncToInt (p.decaySec * samplesPerSec)

/-- Line 80: `(int)(sustainSec*samplesPerSec)`. -/
def sustainFramesOf (p : Params) : Int := truncToInt (p.sustainSec * samplesPerSec)

/-- Line 81: `(int)(releaseSec*samplesPerSec)`. -/
def releaseFramesOf (p : Params) : Int := truncToInt (p.releaseSec * samplesPerSec)

/-- Line 85: `(float)i / attackFrames`. -/
def attackVal (attackFrames : Int) (i : Nat) : ℚ := (i : ℚ) / (attackFrames : ℚ)

/-- Lines 88-89: `t = (float)i / decayFrames; 1.0f + t*(sustainLevel - 1.0f)`. -/
def decayVal (decayFrames : Int) (sustainLevel : ℚ) (i : Nat) : ℚ :=
  let t := (i : ℚ) / (decayFrames : ℚ)
  1.0 + t * (sustainLevel - 1.0)

/-- Line 92: `sustainLevel`. -/
def sustainVal (sustainLevel : ℚ) (_i : Nat) : ℚ := sustainLevel

/-- Line 95: `sustainLevel - sustainLevel*((float)i / releaseFrames)`. -/
def releaseVal (releaseFrames : Int) (sustainLevel : ℚ) (i : Nat) : ℚ :=
  sustainLevel - sustainLevel * ((i : ℚ) / (releaseFrames : ℚ))

/-- The shape shared by the four loops of lines 84-96,
`for (int i = 0; i < frames; ++i, ++sample) envelope[sample] = val(i);`.
The first argument is the number of iterations still to run, `frames - i`; the
result carries the value of the cursor `sample` after the loop. -/
def stageLoop (val : Nat → ℚ) : Nat → Nat → Nat → Mem → Except Fault (Mem × Nat)
  | 0, _, sample, m => Except.ok (m, sample)
  | n + 1, i, sample, m => do
      let e ← store Buffer.envelope m.envelope sample (val i)
      stageLoop val n (i + 1) (sample + 1) { m with envelope := e }

/-- Lines 98-100: `for (int i = 0; i < numFrames; ++i)
envelopedSignal[i] = signal[i] * envelope[i];`. The first argument is the number
of iterations still to run, `numFrames - i`. -/
def combineLoop : Nat → Nat → Mem → Except Fault Mem
  | 0, _, m => Except.ok m
  | n + 1, i, m => do
      let es ← store Buffer.envelopedSignal m.envelopedSignal i (m.signal i * m.envelope i)
      combineLoop n (i + 1) { m with envelopedSignal := es }

/-- Lines 45-76 of `adjustSound`: set `numFrames` and fill `signal`. -/
def generateSignal (L : Libc) (p : Params) (m : Mem) : Except Fault Mem :=
  let m := { m with numFrames := numFramesOf p }
  let incr := incrOf p
  let phase : ℚ := 0
  signalLoop L p.waveType incr m.numFrames.toNat 0 phase m

/-- Lines 78-96 of `adjustSound`: the four stage loops that fill `envelope`. -/
def buildEnvelope (p : Params) (m : Mem) : Except Fault Mem := do
  let attackFrames := attackFramesOf p
  let decayFrames := decayFramesOf p
  let sustainFrames := sustainFramesOf p
  let releaseFrames := releaseFramesOf p
  let sample := 0
  let r ← stageLoop (attackVal attackFrames) attackFrames.toNat 0 sample m
  let r ← stageLoop (decayVal decayFrames p.sustainLevel) decayFrames.toNat 0 r.2 r.1
  let r ← stageLoop (sustainVal p.sustainLevel) sustainFrames.toNat 0 r.2 r.1
  let r ← stageLoop (releaseVal releaseFrames p.sustainLevel) releaseFrames.toNat 0 r.2 r.1
  return r.1

/-- Lines 98-100 of `adjustSound`: the combining step. -/
def applyEnvelope (m : Mem) : Except Fault Mem :=
  combineLoop m.numFrames.toNat 0 m

/-- The function `void adjustSound()` (lines 44-101). -/
def adjustSound (L : Libc) (p : Params) (m : Mem) : Except Fault Mem := do
  let m ← generateSignal L p m
  let m ← buildEnvelope p m
  applyEnvelope m

/-! ## playSound -/

/-- The value of `phase` after `k` iterations of lines 74-75 starting from `phase`. -/
def phaseFrom (incr phase : ℚ) (k : Nat) : ℚ := (nextPhase incr)^[k] phase

/-- The value of the local `phase` of `adjustSound` when sample `k` is computed:
it starts at `0` (line 49) and is advanced once per sample. -/
def phaseAt (incr : ℚ) (k : Nat) : ℚ := phaseFrom incr 0 k

/-- The number of `rand()` calls one iteration of the signal loop makes. -/
def drawsPerSample (w : WaveType) : Nat :=
  match w with
  | WaveType.WAVETYPE_NOISE => 1
  | _ => 0

/-- The contents of `signal` after the signal loop has run `n` iterations from
index `sample` with starting phase `phase`. -/
def signalAfter (L : Libc) (w : WaveType) (incr : ℚ) (n sample : Nat) (phase : ℚ)
    (m : Mem) : Nat → ℚ :=
  fun i => if sample ≤ i ∧ i < sample + n then
      (waveValue L w (phaseFrom incr phase (i - sample))
        (m.randCalls + (i - sample) * drawsPerSample w)).1
    else m.signal i

/-- The contents of `envelope` after a stage loop has run `n` iterations from
local index `i` and cursor `sample`. -/
def envelopeAfter (val : Nat → ℚ) (n i sample : Nat) (m : Mem) : Nat → ℚ :=
  fun j => if sample ≤ j ∧ j < sample + n then val (i + (j - sample)) else m.envelope j

/-- The contents of `envelopedSignal` after the combining loop has run `n`
iterations from index `i`. -/
def envelopedAfter (n i : Nat) (m : Mem) : Nat → ℚ :=
  fun j => if i ≤ j ∧ j < i + n then m.signal j * m.envelope j else m.envelopedSignal j

/-- The value of the envelope cursor `sample` after the four stage loops: the
number of envelope samples that `adjustSound` writes. -/
def envelopeLength (p : Params) : Nat :=
  (attackFramesOf p).toNat + (decayFramesOf p).toNat + (sustainFramesOf p).toNat
    + (releaseFramesOf p).toNat

/-- The contents of `signal` after the signal loop of `adjustSound`. -/
def signalOf (L : Libc) (p : Params) (m : Mem) : Nat → ℚ :=
  signalAfter L p.waveType (incrOf p) (numFramesOf p).toNat 0 0 m

/-- The contents of `envelope` after the four stage loops of `adjustSound`, given
its contents `old` before them. -/
def envelopeOf (p : Params) (old : Nat → ℚ) : Nat → ℚ :=
  fun j =>
    let a := (attackFramesOf p).toNat
    let d := (decayFramesOf p).toNat
    let s := (sustainFramesOf p).toNat
    let r := (releaseFramesOf p).toNat
    if j < a then attackVal (attackFramesOf p) j
    else if j < a + d then decayVal (decayFramesOf p) p.sustainLevel (j - a)
    else if j < a + d + s then sustainVal p.sustainLevel (j - (a + d))
    else if j < a + d + s + r then releaseVal (releaseFramesOf p) p.sustainLevel (j - (a + d + s))
    else old j

/-- The memory after `adjustSound`, in closed form. -/
def adjusted (L : Libc) (p : Params) (m : Mem) : Mem :=
  { signal := signalOf L p m
    envelope := envelopeOf p m.envelope
    envelopedSignal := fun j =>
      if j < (numFramesOf p).toNat then signalOf L p m j * envelopeOf p m.envelope j
      else m.envelopedSignal j
    numFrames := numFramesOf p
    randCalls := m.randCalls + (numFramesOf p).toNat * drawsPerSample p.waveType }

/-- The domain of the four stage durations: the range `[0, 1]` of their sliders
(lines 215-218). -/
def DurationsInDomain (p : Params) : Prop :=
  (0 ≤ p.attackSec ∧ p.attackSec ≤ 1) ∧ (0 ≤ p.decaySec ∧ p.decaySec ≤ 1)
    ∧ (0 ≤ p.sustainSec ∧ p.sustainSec ≤ 1) ∧ (0 ≤ p.releaseSec ∧ p.releaseSec ≤ 1)

/-- The remainder `x mod y` of the specification's closed form, on rationals:
`x - y * floor (x / y)`. -/
def fmod (x y : ℚ) : ℚ := x - y * (⌊x / y⌋ : ℚ)

/-- The specification's closed form of sample `k` of the sine at frequency `f`,
computed from the absolute sample index: `sin(2π·f·k/r mod 2π)` with the source's
constants `TWOPI` for `2π` and `samplesPerSec` for `r`. -/
def sineClosedForm (L : Libc) (f : ℚ) (k : Nat) : ℚ :=
  L.sinf (fmod (TWOPI * f * (k : ℚ) / (samplesPerSec : ℚ)) TWOPI)

/-! ## Concrete inputs used in the examples -/

/-- The state of a 32-bit linear congruential generator after `n` steps from
seed `1`. -/
def lcgState : Nat → Nat
  | 0 => 1
  | n + 1 => (lcgState n * 214013 + 2531011) % 2 ^ 32

/-- A C library for the examples: `sinf` is the cubic Taylor polynomial clamped
to `[-1, 1]`, `rand` takes 15 bits of a linear congruential generator, and
`RAND_MAX` is `0x7fff`. -/
def sampleLibc : Libc :=
  { sinf := fun x => max (-1) (min 1 (x - x ^ 3 / 6))
    rand := fun n => ((lcgState (n + 1) / 65536 % 32768 : Nat) : Int)
    RAND_MAX := 32767 }

/-- The memory at process start: the static arrays and `numFrames` are
zero-initialised and `rand()` has not been called. -/
def initialMem : Mem :=
  { signal := fun _ => 0
    envelope := fun _ => 0
    envelopedSignal := fun _ => 0
    numFrames := 0
    randCalls := 0 }

/-- The defaults of lines 33-40. -/
def defaultParams : Params :=
  { waveType := WaveType.WAVETYPE_SIN
    attackSec := 0.1
    decaySec := 0.1
    sustainSec := 0.3
    releaseSec := 0.1
    sustainLevel := 0.5
    frequency := 440.0 }

/-- Attack and decay of `1/256` s (187.5 frames each), no sustain and no release. -/
def halfFrameParams : Params :=
  { defaultParams with attackSec := 1 / 256, decaySec := 1 / 256, sustainSec := 0,
                       releaseSec := 0 }

/-- All four durations at `1.01` s, the overflow scenario of the specification. -/
def overflowParams : Params :=
  { defaultParams with attackSec := 1.01, decaySec := 1.01, sustainSec := 1.01,
                       releaseSec := 1.01 }

/-- All four durations at `1.25` s. -/
def longParams : Params :=
  { defaultParams with attackSec := 1.25, decaySec := 1.25, sustainSec := 1.25,
                       releaseSec := 1.25 }

/-- All four durations at `1.0` s, the capacity scenario of the specification. -/
def fullParams : Params :=
  { defaultParams with attackSec := 1.0, decaySec := 1.0, sustainSec := 1.0,
                       releaseSec := 1.0 }

theorem maxBufferSize_eq : maxBufferSize = 192000 := by
  norm_num [maxBufferSize, maxBufferDurationSec, samplesPerSec]

theorem truncToInt_of_nonneg {x : ℚ} (h : 0 ≤ x) : truncToInt x = ⌊x⌋ := by
  simp [truncToInt, h]

theorem truncToInt_nonneg {x : ℚ} (h : 0 ≤ x) : 0 ≤ truncToInt x := by
  rw [truncToInt_of_nonneg h]; exact Int.floor_nonneg.mpr h

theorem truncToInt_le {x : ℚ} {n : Int} (h0 : 0 ≤ x) (h : x ≤ n) : truncToInt x ≤ n := by
  rw [truncToInt_of_nonneg h0]
  have h1 : (⌊x⌋ : ℚ) ≤ n := le_trans (Int.floor_le x) h
  exact_mod_cast h1

theorem store_ok {b : Buffer} {a : Nat → ℚ} {i : Nat} {v : ℚ}
    (h : (i : Int) < maxBufferSize) :
    store b a i v = Except.ok (Function.update a i v) := by
  simp [store, h]

theorem store_error {b : Buffer} {a : Nat → ℚ} {i : Nat} {v : ℚ}
    (h : maxBufferSize ≤ (i : Int)) :
    store b a i v = Except.error ⟨b, i⟩ := by
  simp [store, not_lt.mpr h]

theorem waveValue_snd (L : Libc) (w : WaveType) (phase : ℚ) (c : Nat) :
    (waveValue L w phase c).2 = c + drawsPerSample w := by
  cases w <;> rfl

theorem phaseFrom_zero (incr phase : ℚ) : phaseFrom incr phase 0 = phase := rfl

theorem phaseFrom_succ (incr phase : ℚ) (k : Nat) :
    phaseFrom incr phase (k + 1) = phaseFrom incr (nextPhase incr phase) k := by
  simp [phaseFrom, Function.iterate_succ_apply]

theorem phaseFrom_succ_last (incr phase : ℚ) (k : Nat) :
    phaseFrom incr phase (k + 1) = nextPhase incr (phaseFrom incr phase k) := by
  simp [phaseFrom, Function.iterate_succ_apply']

/-! ## The loops in closed form -/

theorem signalLoop_zero (L : Libc) (w : WaveType) (incr : ℚ) (sample : Nat) (phase : ℚ)
    (m : Mem) : signalLoop L w incr 0 sample phase m = Except.ok m := by
  rw [signalLoop]

theorem signalLoop_succ (L : Libc) (w : WaveType) (incr : ℚ) (n sample : Nat) (phase : ℚ)
    (m : Mem) (hs : (sample : Int) < maxBufferSize) :
    signalLoop L w incr (n + 1) sample phase m =
      signalLoop L w incr n (sample + 1) (nextPhase incr phase)
        { m with signal := Function.update m.signal sample (waveValue L w phase m.randCalls).1,
                 randCalls := (waveValue L w phase m.randCalls).2 } := by
  rw [signalLoop, store_ok hs]; rfl

theorem signalLoop_succ_error (L : Libc) (w : WaveType) (incr : ℚ) (n sample : Nat)
    (phase : ℚ) (m : Mem) (hs : maxBufferSize ≤ (sample : Int)) :
    signalLoop L w incr (n + 1) sample phase m = Except.error ⟨Buffer.signal, sample⟩ := by
  rw [signalLoop, store_error hs]; rfl

theorem signalLoop_ok (L : Libc) (w : WaveType) (incr : ℚ) :
    ∀ (n sample : Nat) (phase : ℚ) (m : Mem), ((sample + n : Nat) : Int) ≤ maxBufferSize →
      signalLoop L w incr n sample phase m =
        Except.ok { m with signal := signalAfter L w incr n sample phase m,
                           randCalls := m.randCalls + n * drawsPerSample w } := by
  intro n
  induction n with
  | zero =>
      intro sample phase m _
      have hsig : signalAfter L w incr 0 sample phase m = m.signal := by
        funext i
        have : ¬ (sample ≤ i ∧ i < sample + 0) := by omega
        simp only [signalAfter, this, if_false]
      rw [signalLoop_zero, hsig, Nat.zero_mul, Nat.add_zero]
  | succ n ih =>
      intro sample phase m h
      have hs : (sample : Int) < maxBufferSize := by push_cast at h; omega
      have hn : ((sample + 1 + n : Nat) : Int) ≤ maxBufferSize := by
        push_cast at h ⊢; omega
      rw [signalLoop_succ L w incr n sample phase m hs, ih _ _ _ hn]
      simp only [waveValue_snd]
      congr 2
      · funext i
        simp only [signalAfter]
        by_cases h1 : sample + 1 ≤ i ∧ i < sample + 1 + n
        · have h2 : sample ≤ i ∧ i < sample + (n + 1) := by omega
          have h3 : i - sample = (i - (sample + 1)) + 1 := by omega
          simp only [h1, h2, and_self, if_true, waveValue_snd]
          rw [h3, phaseFrom_succ]
          congr 2
          ring
        · by_cases h4 : i = sample
          · subst h4
            have h2 : i ≤ i ∧ i < i + (n + 1) := by omega
            simp only [h1, h2, and_self, if_true, if_false, Function.update_same,
              Nat.sub_self, phaseFrom_zero, Nat.zero_mul, Nat.add_zero]
          · have h2 : ¬ (sample ≤ i ∧ i < sample + (n + 1)) := by omega
            simp only [h1, h2, if_false, Function.update_noteq h4]
      · ring

/-- When the loop is to run past the end of `signal`, the store that faults is
the one at index `maxBufferSize`. -/
theorem signalLoop_error (L : Libc) (w : WaveType) (incr : ℚ) :
    ∀ (n sample : Nat) (phase : ℚ) (m : Mem), (sample : Int) ≤ maxBufferSize →
      maxBufferSize < ((sample + n : Nat) : Int) →
      signalLoop L w incr n sample phase m =
        Except.error ⟨Buffer.signal, maxBufferSize.toNat⟩ := by
  intro n
  induction n with
  | zero =>
      intro sample phase m h1 h2
      simp only [Nat.add_zero] at h2
      omega
  | succ n ih =>
      intro sample phase m h1 h2
      by_cases hs : (sample : Int) < maxBufferSize
      · rw [signalLoop_succ L w incr n sample phase m hs]
        apply ih
        · push_cast; omega
        · push_cast at h2 ⊢; omega
      · have hs2 : maxBufferSize ≤ (sample : Int) := not_lt.mp hs
        have hs3 : maxBufferSize.toNat = sample := by omega
        rw [signalLoop_succ_error L w incr n sample phase m hs2, hs3]

theorem stageLoop_zero (val : Nat → ℚ) (i sample : Nat) (m : Mem) :
    stageLoop val 0 i sample m = Except.ok (m, sample) := by
  rw [stageLoop]

theorem stageLoop_succ (val : Nat → ℚ) (n i sample : Nat) (m : Mem)
    (hs : (sample : Int) < maxBufferSize) :
    stageLoop val (n + 1) i sample m =
      stageLoop val n (i + 1) (sample + 1)
        { m with envelope := Function.update m.envelope sample (val i) } := by
  rw [stageLoop, store_ok hs]; rfl

theorem stageLoop_succ_error (val : Nat → ℚ) (n i sample : Nat) (m : Mem)
    (hs : maxBufferSize ≤ (sample : Int)) :
    stageLoop val (n + 1) i sample m = Except.error ⟨Buffer.envelope, sample⟩ := by
  rw [stageLoop, store_error hs]; rfl

theorem stageLoop_ok (val : Nat → ℚ) :
    ∀ (n i sample : Nat) (m : Mem), ((sample + n : Nat) : Int) ≤ maxBufferSize →
      stageLoop val n i sample m =
        Except.ok ({ m with envelope := envelopeAfter val n i sample m }, sample + n) := by
  intro n
  induction n with
  | zero =>
      intro i sample m _
      have henv : envelopeAfter val 0 i sample m = m.envelope := by
        funext j
        have : ¬ (sample ≤ j ∧ j < sample + 0) := by omega
        simp only [envelopeAfter, this, if_false]
      rw [stageLoop_zero, henv, Nat.add_zero]
  | succ n ih =>
      intro i sample m h
      have hs : (sample : Int) < maxBufferSize := by push_cast at h; omega
      have hn : ((sample + 1 + n : Nat) : Int) ≤ maxBufferSize := by
        push_cast at h ⊢; omega
      rw [stageLoop_succ val n i sample m hs, ih _ _ _ hn]
      congr 2
      · congr 1
        funext j
        simp only [envelopeAfter]
        by_cases h1 : sample + 1 ≤ j ∧ j < sample + 1 + n
        · have h2 : sample ≤ j ∧ j < sample + (n + 1) := by omega
          have h3 : i + 1 + (j - (sample + 1)) = i + (j - sample) := by omega
          simp only [h1, h2, and_self, if_true, h3]
        · by_cases h4 : j = sample
          · subst h4
            have h2 : j ≤ j ∧ j < j + (n + 1) := by omega
            simp only [h1, h2, and_self, if_true, if_false, Function.update_same,
              Nat.sub_self, Nat.add_zero]
          · have h2 : ¬ (sample ≤ j ∧ j < sample + (n + 1)) := by omega
            simp only [h1, h2, if_false, Function.update_noteq h4]
      · omega

/-- When a stage loop is to run past the end of `envelope`, the store that faults
is the one at index `maxBufferSize`. -/
theorem stageLoop_error (val : Nat → ℚ) :
    ∀ (n i sample : Nat) (m : Mem), (sample : Int) ≤ maxBufferSize →
      maxBufferSize < ((sample + n : Nat) : Int) →
      stageLoop val n i sample m = Except.error ⟨Buffer.envelope, maxBufferSize.toNat⟩ := by
  intro n
  induction n with
  | zero =>
      intro i sample m h1 h2
      simp only [Nat.add_zero] at h2
      omega
  | succ n ih =>
      intro i sample m h1 h2
      by_cases hs : (sample : Int) < maxBufferSize
      · rw [stageLoop_succ val n i sample m hs]
        apply ih
        · push_cast; omega
        · push_cast at h2 ⊢; omega
      · have hs2 : maxBufferSize ≤ (sample : Int) := not_lt.mp hs
        have hs3 : maxBufferSize.toNat = sample := by omega
        rw [stageLoop_succ_error val n i sample m hs2, hs3]

theorem combineLoop_zero (i : Nat) (m : Mem) : combineLoop 0 i m = Except.ok m := by
  rw [combineLoop]

theorem combineLoop_succ (n i : Nat) (m : Mem) (hs : (i : Int) < maxBufferSize) :
    combineLoop (n + 1) i m =
      combineLoop n (i + 1)
        { m with envelopedSignal :=
            Function.update m.envelopedSignal i (m.signal i * m.envelope i) } := by
  rw [combineLoop, store_ok hs]; rfl

theorem combineLoop_ok :
    ∀ (n i : Nat) (m : Mem), ((i + n : Nat) : Int) ≤ maxBufferSize →
      combineLoop n i m = Except.ok { m with envelopedSignal := envelopedAfter n i m } := by
  intro n
  induction n with
  | zero =>
      intro i m _
      have hes : envelopedAfter 0 i m = m.envelopedSignal := by
        funext j
        have : ¬ (i ≤ j ∧ j < i + 0) := by omega
        simp only [envelopedAfter, this, if_false]
      rw [combineLoop_zero, hes]
  | succ n ih =>
      intro i m h
      have hs : (i : Int) < maxBufferSize := by push_cast at h; omega
      have hn : ((i + 1 + n : Nat) : Int) ≤ maxBufferSize := by
        push_cast at h ⊢; omega
      rw [combineLoop_succ n i m hs, ih _ _ hn]
      congr 2
      funext j
      simp only [envelopedAfter]
      by_cases h1 : i + 1 ≤ j ∧ j < i + 1 + n
      · have h2 : i ≤ j ∧ j < i + (n + 1) := by omega
        simp only [h1, h2, and_self, if_true]
      · by_cases h4 : j = i
        · subst h4
          have h2 : j ≤ j ∧ j < j + (n + 1) := by omega
          simp only [h1, h2, and_self, if_true, if_false, Function.update_same]
        · have h2 : ¬ (i ≤ j ∧ j < i + (n + 1)) := by omega
          simp only [h1, h2, if_false, Function.update_noteq h4]

/-! ## adjustSound in closed form -/

theorem generateSignal_ok (L : Libc) (p : Params) (m : Mem)
    (h : numFramesOf p ≤ maxBufferSize) :
    generateSignal L p m =
      Except.ok { m with signal := signalOf L p m, numFrames := numFramesOf p,
                         randCalls := m.randCalls
                           + (numFramesOf p).toNat * drawsPerSample p.waveType } := by
  have hn : ((0 + (numFramesOf p).toNat : Nat) : Int) ≤ maxBufferSize := by
    have h0 : (0 : Int) ≤ maxBufferSize := by rw [maxBufferSize_eq]; norm_num
    omega
  unfold generateSignal
  simp only []
  rw [signalLoop_ok L p.waveType (incrOf p) _ 0 0 _ hn]
  rfl

theorem generateSignal_error (L : Libc) (p : Params) (m : Mem)
    (h : maxBufferSize < numFramesOf p) :
    generateSignal L p m = Except.error ⟨Buffer.signal, maxBufferSize.toNat⟩ := by
  have h0 : ((0 : Nat) : Int) ≤ maxBufferSize := by rw [maxBufferSize_eq]; norm_num
  have hn : maxBufferSize < ((0 + (numFramesOf p).toNat : Nat) : Int) := by omega
  unfold generateSignal
  simp only []
  exact signalLoop_error L p.waveType (incrOf p) _ 0 0 _ h0 hn

theorem buildEnvelope_ok (p : Params) (m : Mem)
    (h : (envelopeLength p : Int) ≤ maxBufferSize) :
    buildEnvelope p m = Except.ok { m with envelope := envelopeOf p m.envelope } := by
  unfold envelopeLength at h
  have h1 : ((0 + (attackFramesOf p).toNat : Nat) : Int) ≤ maxBufferSize := by
    push_cast at h ⊢; omega
  have h2 : ((0 + (attackFramesOf p).toNat + (decayFramesOf p).toNat : Nat) : Int)
      ≤ maxBufferSize := by push_cast at h ⊢; omega
  have h3 : ((0 + (attackFramesOf p).toNat + (decayFramesOf p).toNat
      + (sustainFramesOf p).toNat : Nat) : Int) ≤ maxBufferSize := by
    push_cast at h ⊢; omega
  have h4 : ((0 + (attackFramesOf p).toNat + (decayFramesOf p).toNat
      + (sustainFramesOf p).toNat + (releaseFramesOf p).toNat : Nat) : Int)
      ≤ maxBufferSize := by push_cast at h ⊢; omega
  unfold buildEnvelope
  simp only []
  rw [stageLoop_ok _ _ 0 0 m h1]
  simp only [bind, Except.bind]
  rw [stageLoop_ok _ _ 0 _ _ h2]
  simp only [bind, Except.bind]
  rw [stageLoop_ok _ _ 0 _ _ h3]
  simp only [bind, Except.bind]
  rw [stageLoop_ok _ _ 0 _ _ h4]
  simp only [bind, Except.bind, pure, Except.pure]
  congr 2
  funext j
  simp only [envelopeOf, envelopeAfter, Nat.zero_add, Nat.sub_zero]
  clear h h1 h2 h3 h4
  generalize (attackFramesOf p).toNat = a
  generalize (decayFramesOf p).toNat = d
  generalize (sustainFramesOf p).toNat = s
  generalize (releaseFramesOf p).toNat = r
  split_ifs <;> first | rfl | (exfalso; omega)

theorem applyEnvelope_ok (m : Mem) (h : m.numFrames ≤ maxBufferSize) :
    applyEnvelope m =
      Except.ok { m with envelopedSignal := envelopedAfter m.numFrames.toNat 0 m } := by
  have hn : ((0 + m.numFrames.toNat : Nat) : Int) ≤ maxBufferSize := by
    have h0 : (0 : Int) ≤ maxBufferSize := by rw [maxBufferSize_eq]; norm_num
    omega
  unfold applyEnvelope
  exact combineLoop_ok _ 0 m hn

/-- Whenever both the frame count and the number of envelope samples are within
the capacity of the arrays, `adjustSound` completes, in the state `adjusted`. -/
theorem adjustSound_ok (L : Libc) (p : Params) (m : Mem)
    (hn : numFramesOf p ≤ maxBufferSize) (he : (envelopeLength p : Int) ≤ maxBufferSize) :
    adjustSound L p m = Except.ok (adjusted L p m) := by
  unfold adjustSound
  rw [generateSignal_ok L p m hn]
  simp only [bind, Except.bind]
  rw [buildEnvelope_ok p _ he]
  simp only []
  rw [applyEnvelope_ok _ hn]
  simp only [adjusted]
  congr 2
  funext j
  simp only [envelopedAfter, Nat.zero_add, Nat.zero_le, true_and]

/-- Whenever the frame count exceeds the capacity, `adjustSound` runs into the
store `signal[maxBufferSize] = val`. -/
theorem adjustSound_error (L : Libc) (p : Params) (m : Mem)
    (hn : maxBufferSize < numFramesOf p) :
    adjustSound L p m = Except.error ⟨Buffer.signal, maxBufferSize.toNat⟩ := by
  unfold adjustSound
  rw [generateSignal_error L p m hn]
  rfl

/-- Whenever the four stages together exceed the capacity, the stage loops run
into the store `envelope[maxBufferSize] = val`. -/
theorem buildEnvelope_error (p : Params) (m : Mem)
    (h : maxBufferSize < (envelopeLength p : Int)) :
    buildEnvelope p m = Except.error ⟨Buffer.envelope, maxBufferSize.toNat⟩ := by
  unfold envelopeLength at h
  have h0 : ((0 : Nat) : Int) ≤ maxBufferSize := by rw [maxBufferSize_eq]; norm_num
  unfold buildEnvelope
  simp only []
  by_cases h1 : ((0 + (attackFramesOf p).toNat : Nat) : Int) ≤ maxBufferSize
  · rw [stageLoop_ok _ _ 0 0 m h1]
    simp only [bind, Except.bind]
    by_cases h2 : ((0 + (attackFramesOf p).toNat + (decayFramesOf p).toNat : Nat) : Int)
        ≤ maxBufferSize
    · rw [stageLoop_ok _ _ 0 _ _ h2]
      simp only [bind, Except.bind]
      by_cases h3 : ((0 + (attackFramesOf p).toNat + (decayFramesOf p).toNat
          + (sustainFramesOf p).toNat : Nat) : Int) ≤ maxBufferSize
      · rw [stageLoop_ok _ _ 0 _ _ h3]
        simp only [bind, Except.bind]
        rw [stageLoop_error _ _ 0 _ _ h3 (by push_cast at h ⊢; omega)]
      · rw [stageLoop_error _ _ 0 _ _ h2 (not_le.mp h3)]
    · rw [stageLoop_error _ _ 0 _ _ h1 (not_le.mp h2)]
  · rw [stageLoop_error _ _ 0 0 m h0 (not_le.mp h1)]
    rfl

/-- The result of `adjustSound`, characterised: it completes exactly when the
frame count and the number of envelope samples are within capacity, and then the
memory is `adjusted`. -/
theorem adjustSound_eq_ok_iff (L : Libc) (p : Params) (m r : Mem) :
    adjustSound L p m = Except.ok r ↔
      numFramesOf p ≤ maxBufferSize ∧ (envelopeLength p : Int) ≤ maxBufferSize
        ∧ r = adjusted L p m := by
  constructor
  · intro h
    by_cases hn : numFramesOf p ≤ maxBufferSize
    · by_cases he : (envelopeLength p : Int) ≤ maxBufferSize
      · rw [adjustSound_ok L p m hn he] at h
        exact ⟨hn, he, (Except.ok.inj h).symm⟩
      · exfalso
        unfold adjustSound at h
        rw [generateSignal_ok L p m hn] at h
        simp only [bind, Except.bind] at h
        rw [buildEnvelope_error p _ (not_le.mp he)] at h
        simp at h
    · rw [adjustSound_error L p m (not_le.mp hn)] at h
      simp at h
  · rintro ⟨hn, he, rfl⟩
    exact adjustSound_ok L p m hn he

/-! ## Frame counts of in-domain parameters -/

theorem samplesPerSec_cast : ((samplesPerSec : Int) : ℚ) = 48000 := by
  norm_num [samplesPerSec]

theorem stageFrames_bounds {x : ℚ} (h0 : 0 ≤ x) (h1 : x ≤ 1) :
    0 ≤ truncToInt (x * samplesPerSec) ∧ truncToInt (x * samplesPerSec) ≤ 48000 := by
  rw [samplesPerSec_cast]
  have hx : 0 ≤ x * 48000 := by positivity
  refine ⟨truncToInt_nonneg hx, truncToInt_le hx ?_⟩
  push_cast
  linarith

theorem numFramesOf_nonneg (p : Params) (h : DurationsInDomain p) : 0 ≤ numFramesOf p := by
  obtain ⟨⟨a0, _⟩, ⟨d0, _⟩, ⟨s0, _⟩, ⟨r0, _⟩⟩ := h
  unfold numFramesOf
  simp only [samplesPerSec_cast]
  apply truncToInt_nonneg
  have : 0 ≤ p.attackSec + p.decaySec + p.sustainSec + p.releaseSec := by linarith
  positivity

theorem numFramesOf_le (p : Params) (h : DurationsInDomain p) :
    numFramesOf p ≤ maxBufferSize := by
  obtain ⟨⟨a0, a1⟩, ⟨d0, d1⟩, ⟨s0, s1⟩, ⟨r0, r1⟩⟩ := h
  unfold numFramesOf
  simp only [samplesPerSec_cast]
  rw [maxBufferSize_eq]
  have h0 : 0 ≤ p.attackSec + p.decaySec + p.sustainSec + p.releaseSec := by linarith
  apply truncToInt_le (by positivity)
  push_cast
  linarith

theorem envelopeLength_le (p : Params) (h : DurationsInDomain p) :
    (envelopeLength p : Int) ≤ maxBufferSize := by
  obtain ⟨⟨a0, a1⟩, ⟨d0, d1⟩, ⟨s0, s1⟩, ⟨r0, r1⟩⟩ := h
  have ha := stageFrames_bounds a0 a1
  have hd := stageFrames_bounds d0 d1
  have hs := stageFrames_bounds s0 s1
  have hr := stageFrames_bounds r0 r1
  unfold envelopeLength attackFramesOf decayFramesOf sustainFramesOf releaseFramesOf
  rw [maxBufferSize_eq]
  push_cast
  omega

/-- In-domain durations: `adjustSound` completes, in the state `adjusted`. -/
theorem adjustSound_inDomain (L : Libc) (p : Params) (m : Mem) (h : DurationsInDomain p) :
    adjustSound L p m = Except.ok (adjusted L p m) :=
  adjustSound_ok L p m (numFramesOf_le p h) (envelopeLength_le p h)

/-! ## Evaluation at the concrete inputs -/

theorem truncToInt_eq_of_mem_Ico {x : ℚ} {n : Int} (h0 : 0 ≤ x) (h1 : (n : ℚ) ≤ x)
    (h2 : x < n + 1) : truncToInt x = n := by
  rw [truncToInt_of_nonneg h0]
  exact Int.floor_eq_iff.mpr ⟨h1, h2⟩

theorem halfFrameParams_numFrames : numFramesOf halfFrameParams = 375 := by
  unfold numFramesOf
  simp only [samplesPerSec_cast, halfFrameParams, defaultParams]
  apply truncToInt_eq_of_mem_Ico <;> norm_num

theorem halfFrameParams_attackFrames : attackFramesOf halfFrameParams = 187 := by
  unfold attackFramesOf
  simp only [samplesPerSec_cast, halfFrameParams, defaultParams]
  apply truncToInt_eq_of_mem_Ico <;> norm_num

theorem halfFrameParams_decayFrames : decayFramesOf halfFrameParams = 187 := by
  unfold decayFramesOf
  simp only [samplesPerSec_cast, halfFrameParams, defaultParams]
  apply truncToInt_eq_of_mem_Ico <;> norm_num

theorem halfFrameParams_sustainFrames : sustainFramesOf halfFrameParams = 0 := by
  unfold sustainFramesOf
  simp only [samplesPerSec_cast, halfFrameParams, defaultParams]
  apply truncToInt_eq_of_mem_Ico <;> norm_num

theorem halfFrameParams_releaseFrames : releaseFramesOf halfFrameParams = 0 := by
  unfold releaseFramesOf
  simp only [samplesPerSec_cast, halfFrameParams, defaultParams]
  apply truncToInt_eq_of_mem_Ico <;> norm_num

theorem halfFrameParams_inDomain : DurationsInDomain halfFrameParams := by
  unfold DurationsInDomain
  simp only [halfFrameParams, defaultParams]
  norm_num

theorem overflowParams_numFrames : numFramesOf overflowParams = 193920 := by
  unfold numFramesOf
  simp only [samplesPerSec_cast, overflowParams, defaultParams]
  apply truncToInt_eq_of_mem_Ico <;> norm_num

theorem longParams_numFrames : numFramesOf longParams = 240000 := by
  unfold numFramesOf
  simp only [samplesPerSec_cast, longParams, defaultParams]
  apply truncToInt_eq_of_mem_Ico <;> norm_num

theorem fullParams_numFrames : numFramesOf fullParams = 192000 := by
  unfold numFramesOf
  simp only [samplesPerSec_cast, fullParams, defaultParams]
  apply truncToInt_eq_of_mem_Ico <;> norm_num

theorem fullParams_inDomain : DurationsInDomain fullParams := by
  unfold DurationsInDomain
  simp only [fullParams, defaultParams]
  norm_num

theorem defaultParams_inDomain : DurationsInDomain defaultParams := by
  unfold DurationsInDomain
  simp only [defaultParams]
  norm_num

/-! ## Indices that `adjustSound` does not reach -/

theorem signalOf_of_le (L : Libc) (p : Params) (m : Mem) (j : Nat)
    (h : (numFramesOf p).toNat ≤ j) : signalOf L p m j = m.signal j := by
  have : ¬ (0 ≤ j ∧ j < 0 + (numFramesOf p).toNat) := by omega
  simp only [signalOf, signalAfter, this, if_false]

/-- The envelope is left as it was at every index the stage loops do not reach. -/
theorem envelopeOf_of_le (p : Params) (old : Nat → ℚ) (j : Nat) (h : envelopeLength p ≤ j) :
    envelopeOf p old j = old j := by
  unfold envelopeLength at h
  simp only [envelopeOf]
  split_ifs <;> first | rfl | (exfalso; omega)

theorem TWOPI_pos : 0 < TWOPI := by
  norm_num [TWOPI, PI]

theorem incrOf_bounds (p : Params) (h0 : 0 ≤ p.frequency) (h1 : p.frequency ≤ 1000) :
    0 ≤ incrOf p ∧ incrOf p < TWOPI := by
  have hT := TWOPI_pos
  unfold incrOf
  rw [samplesPerSec_cast]
  constructor
  · positivity
  · rw [div_lt_iff₀ (by norm_num)]
    nlinarith

theorem nextPhase_bounds {incr phase : ℚ} (hi0 : 0 ≤ incr) (hi1 : incr ≤ TWOPI)
    (h0 : 0 ≤ phase) (h1 : phase < TWOPI) :
    0 ≤ nextPhase incr phase ∧ nextPhase incr phase < TWOPI := by
  unfold nextPhase
  simp only [ge_iff_le]
  split_ifs with h
  · constructor <;> linarith
  · constructor <;> linarith

theorem phaseFrom_bounds {incr : ℚ} (hi0 : 0 ≤ incr) (hi1 : incr ≤ TWOPI) {phase : ℚ}
    (h0 : 0 ≤ phase) (h1 : phase < TWOPI) (k : Nat) :
    0 ≤ phaseFrom incr phase k ∧ phaseFrom incr phase k < TWOPI := by
  induction k with
  | zero => exact ⟨h0, h1⟩
  | succ k ih =>
      rw [phaseFrom_succ_last]
      exact nextPhase_bounds hi0 hi1 ih.1 ih.2

theorem phaseAt_bounds {incr : ℚ} (hi0 : 0 ≤ incr) (hi1 : incr ≤ TWOPI) (k : Nat) :
    0 ≤ phaseAt incr k ∧ phaseAt incr k < TWOPI :=
  phaseFrom_bounds hi0 hi1 (le_refl 0) TWOPI_pos k

/-- The sample that the signal loop of `adjustSound` stores at index `k`. -/
theorem signalOf_of_lt (L : Libc) (p : Params) (m : Mem) (k : Nat)
    (h : k < (numFramesOf p).toNat) :
    signalOf L p m k =
      (waveValue L p.waveType (phaseAt (incrOf p) k)
        (m.randCalls + k * drawsPerSample p.waveType)).1 := by
  have : 0 ≤ k ∧ k < 0 + (numFramesOf p).toNat := by omega
  simp only [signalOf, signalAfter, this, and_self, if_true, Nat.sub_zero, phaseAt]

theorem waveValue_bounds (L : Libc) (w : WaveType) (phase : ℚ) (c : Nat)
    (hsin : ∀ x : ℚ, 0 ≤ x → x < TWOPI → -1 ≤ L.sinf x ∧ L.sinf x ≤ 1)
    (hmax : 0 < L.RAND_MAX) (hrand : ∀ n, 0 ≤ L.rand n ∧ L.rand n ≤ L.RAND_MAX)
    (h0 : 0 ≤ phase) (h1 : phase < TWOPI) :
    -1 ≤ (waveValue L w phase c).1 ∧ (waveValue L w phase c).1 ≤ 1 := by
  have hT := TWOPI_pos
  have hq0 : 0 ≤ phase / TWOPI := div_nonneg h0 hT.le
  have hq1 : phase / TWOPI < 1 := (div_lt_one hT).mpr h1
  cases w with
  | WAVETYPE_SIN => exact hsin phase h0 h1
  | WAVETYPE_SQUARE =>
      simp only [waveValue]
      split_ifs <;> norm_num
  | WAVETYPE_SAW =>
      simp only [waveValue]
      constructor <;> norm_num <;> linarith
  | WAVETYPE_TRIANGLE =>
      simp only [waveValue]
      split_ifs with h <;> constructor <;> norm_num at h ⊢ <;> linarith
  | WAVETYPE_NOISE =>
      simp only [waveValue]
      have hm : (0 : ℚ) < (L.RAND_MAX : ℚ) := by exact_mod_cast hmax
      have hr0 : (0 : ℚ) ≤ (L.rand c : ℚ) := by exact_mod_cast (hrand c).1
      have hr1 : (L.rand c : ℚ) ≤ (L.RAND_MAX : ℚ) := by exact_mod_cast (hrand c).2
      have hd0 : 0 ≤ (L.rand c : ℚ) / (L.RAND_MAX : ℚ) := div_nonneg hr0 hm.le
      have hd1 : (L.rand c : ℚ) / (L.RAND_MAX : ℚ) ≤ 1 := (div_le_one hm).mpr hr1
      constructor <;> norm_num <;> linarith

theorem sampleLibc_sinf_bounds (x : ℚ) : -1 ≤ sampleLibc.sinf x ∧ sampleLibc.sinf x ≤ 1 := by
  simp only [sampleLibc]
  exact ⟨le_max_left _ _, max_le (by norm_num) (min_le_left _ _)⟩

theorem sampleLibc_rand_bounds (n : Nat) :
    0 ≤ sampleLibc.rand n ∧ sampleLibc.rand n ≤ sampleLibc.RAND_MAX := by
  simp only [sampleLibc]
  omega

/-! ## The envelope, stage by stage -/

theorem envelopeOf_attack (p : Params) (old : Nat → ℚ) (i : Nat)
    (h : i < (attackFramesOf p).toNat) :
    envelopeOf p old i = attackVal (attackFramesOf p) i := by
  simp only [envelopeOf, h, if_true]

theorem envelopeOf_decay (p : Params) (old : Nat → ℚ) (i : Nat)
    (h : i < (decayFramesOf p).toNat) :
    envelopeOf p old ((attackFramesOf p).toNat + i)
      = decayVal (decayFramesOf p) p.sustainLevel i := by
  have h1 : ¬ (attackFramesOf p).toNat + i < (attackFramesOf p).toNat := by omega
  have h2 : (attackFramesOf p).toNat + i
      < (attackFramesOf p).toNat + (decayFramesOf p).toNat := by omega
  simp only [envelopeOf, h1, h2, if_true, if_false, Nat.add_sub_cancel_left]

theorem envelopeOf_sustain (p : Params) (old : Nat → ℚ) (i : Nat)
    (h : i < (sustainFramesOf p).toNat) :
    envelopeOf p old ((attackFramesOf p).toNat + (decayFramesOf p).toNat + i)
      = p.sustainLevel := by
  have h1 : ¬ (attackFramesOf p).toNat + (decayFramesOf p).toNat + i
      < (attackFramesOf p).toNat := by omega
  have h2 : ¬ (attackFramesOf p).toNat + (decayFramesOf p).toNat + i
      < (attackFramesOf p).toNat + (decayFramesOf p).toNat := by omega
  have h3 : (attackFramesOf p).toNat + (decayFramesOf p).toNat + i
      < (attackFramesOf p).toNat + (decayFramesOf p).toNat + (sustainFramesOf p).toNat := by
    omega
  simp only [envelopeOf, h1, h2, h3, if_true, if_false, sustainVal]

theorem envelopeOf_release (p : Params) (old : Nat → ℚ) (i : Nat)
    (h : i < (releaseFramesOf p).toNat) :
    envelopeOf p old
        ((attackFramesOf p).toNat + (decayFramesOf p).toNat + (sustainFramesOf p).toNat + i)
      = releaseVal (releaseFramesOf p) p.sustainLevel i := by
  have h1 : ¬ (attackFramesOf p).toNat + (decayFramesOf p).toNat
      + (sustainFramesOf p).toNat + i < (attackFramesOf p).toNat := by omega
  have h2 : ¬ (attackFramesOf p).toNat + (decayFramesOf p).toNat
      + (sustainFramesOf p).toNat + i
      < (attackFramesOf p).toNat + (decayFramesOf p).toNat := by omega
  have h3 : ¬ (attackFramesOf p).toNat + (decayFramesOf p).toNat
      + (sustainFramesOf p).toNat + i
      < (attackFramesOf p).toNat + (decayFramesOf p).toNat + (sustainFramesOf p).toNat := by
    omega
  have h4 : (attackFramesOf p).toNat + (decayFramesOf p).toNat
      + (sustainFramesOf p).toNat + i
      < (attackFramesOf p).toNat + (decayFramesOf p).toNat + (sustainFramesOf p).toNat
        + (releaseFramesOf p).toNat := by omega
  simp only [envelopeOf, h1, h2, h3, h4, if_true, if_false, Nat.add_sub_cancel_left]

/-- The ramp `i / frames` of a stage does not decrease from one sample to the
next. -/
theorem ramp_le_succ (frames : Int) (i : Nat) (h : i + 1 < frames.toNat) :
    (i : ℚ) / (frames : ℚ) ≤ ((i + 1 : Nat) : ℚ) / (frames : ℚ) := by
  have hf : (0 : ℚ) < (frames : ℚ) := by
    have : 0 < frames := by omega
    exact_mod_cast this
  apply div_le_div_of_nonneg_right _ hf.le
  push_cast
  linarith

theorem attackVal_le_succ (frames : Int) (i : Nat) (h : i + 1 < frames.toNat) :
    attackVal frames i ≤ attackVal frames (i + 1) :=
  ramp_le_succ frames i h

theorem decayVal_succ_le (frames : Int) (sustainLevel : ℚ) (i : Nat)
    (h : i + 1 < frames.toNat) (hs : sustainLevel ≤ 1) :
    decayVal frames sustainLevel (i + 1) ≤ decayVal frames sustainLevel i := by
  have hr := mul_le_mul_of_nonpos_right (ramp_le_succ frames i h) (sub_nonpos.mpr hs)
  simp only [decayVal]
  norm_num at hr ⊢
  linarith

theorem releaseVal_succ_le (frames : Int) (sustainLevel : ℚ) (i : Nat)
    (h : i + 1 < frames.toNat) (hs : 0 ≤ sustainLevel) :
    releaseVal frames sustainLevel (i + 1) ≤ releaseVal frames sustainLevel i := by
  have hr := mul_le_mul_of_nonneg_left (ramp_le_succ frames i h) hs
  simp only [releaseVal]
  linarith

/-! ## The phase accumulator against the closed form -/

theorem nextPhase_eq (incr phase : ℚ) :
    nextPhase incr phase = phase + incr ∨ nextPhase incr phase = phase + incr - TWOPI := by
  unfold nextPhase
  simp only [ge_iff_le]
  split_ifs
  · right; rfl
  · left; rfl

/-- The accumulated phase differs from `k * incr` by a whole number of turns. -/
theorem phaseAt_turns (incr : ℚ) (k : Nat) :
    ∃ n : Int, phaseAt incr k = (k : ℚ) * incr - TWOPI * (n : ℚ) := by
  induction k with
  | zero => exact ⟨0, by simp [phaseAt, phaseFrom_zero]⟩
  | succ k ih =>
      obtain ⟨n, hn⟩ := ih
      have hstep : phaseAt incr (k + 1) = nextPhase incr (phaseAt incr k) :=
        phaseFrom_succ_last incr 0 k
      rcases nextPhase_eq incr (phaseAt incr k) with h | h
      · refine ⟨n, ?_⟩
        rw [hstep, h, hn]; push_cast; ring
      · refine ⟨n + 1, ?_⟩
        rw [hstep, h, hn]; push_cast; ring

theorem fmod_eq_of_turns {x y v : ℚ} {n : Int} (hy : 0 < y) (hv : v = x - y * (n : ℚ))
    (h0 : 0 ≤ v) (h1 : v < y) : fmod x y = v := by
  have hfl : ⌊x / y⌋ = n := by
    rw [Int.floor_eq_iff]
    constructor
    · rw [le_div_iff₀ hy]; linarith
    · rw [div_lt_iff₀ hy]; linarith
  unfold fmod
  rw [hfl, hv]

/-- Wrapping by one subtraction per sample agrees with the remainder of the
absolute phase `k * incr`, as long as `0 <= incr <= TWOPI`. -/
theorem phaseAt_eq_fmod {incr : ℚ} (hi0 : 0 ≤ incr) (hi1 : incr ≤ TWOPI) (k : Nat) :
    phaseAt incr k = fmod ((k : ℚ) * incr) TWOPI := by
  obtain ⟨n, hn⟩ := phaseAt_turns incr k
  have hb := phaseAt_bounds hi0 hi1 k
  exact (fmod_eq_of_turns TWOPI_pos hn hb.1 hb.2).symm

/-! ## Running `adjustSound` again -/

/-- C1 (the code departs from the claim). With `attackSec = decaySec = 1/256` and
no sustain and no release, `adjustSound` completes with `numFrames = 375` while
the four stage counts are `187 + 187 + 0 + 0 = 374`: `numFrames` is not the sum
of the stage counts, the stage loops leave `envelope[374]` as it was before the
call, and the combining loop multiplies `signal[374]` by that stale value. -/
theorem adjustSound_numFrames_exceeds_stage_sum (L : Libc) (m : Mem) :
    ∃ r, adjustSound L halfFrameParams m = Except.ok r
      ∧ r.numFrames = 375
      ∧ attackFramesOf halfFrameParams + decayFramesOf halfFrameParams
          + sustainFramesOf halfFrameParams + releaseFramesOf halfFrameParams = 374
      ∧ r.envelope 374 = m.envelope 374
      ∧ r.envelopedSignal 374 = r.signal 374 * m.envelope 374 := by
  refine ⟨adjusted L halfFrameParams m,
    adjustSound_inDomain L halfFrameParams m halfFrameParams_inDomain, ?_, ?_, ?_, ?_⟩
  · exact halfFrameParams_numFrames
  · rw [halfFrameParams_attackFrames, halfFrameParams_decayFrames,
      halfFrameParams_sustainFrames, halfFrameParams_releaseFrames]
    rfl
  · apply envelopeOf_of_le
    unfold envelopeLength
    rw [halfFrameParams_attackFrames, halfFrameParams_decayFrames,
      halfFrameParams_sustainFrames, halfFrameParams_releaseFrames]
    decide
  · have he : envelopeOf halfFrameParams m.envelope 374 = m.envelope 374 := by
      apply envelopeOf_of_le
      unfold envelopeLength
      rw [halfFrameParams_attackFrames, halfFrameParams_decayFrames,
        halfFrameParams_sustainFrames, halfFrameParams_releaseFrames]
      decide
    simp only [adjusted, halfFrameParams_numFrames, he]
    norm_num

/-- C2. For all four durations in `[0, 1]`, `adjustSound` completes without a
store outside the arrays: `numFrames` is between `0` and
`maxBufferSize = 192000`, the stage loops write at most `maxBufferSize` envelope
samples, and nothing at an index `>= maxBufferSize` is touched; with all four
durations equal to `1` the frame count is exactly `192000`. -/
theorem adjustSound_within_capacity (L : Libc) (p : Params) (m : Mem)
    (h : DurationsInDomain p) :
    ∃ r, adjustSound L p m = Except.ok r
      ∧ r.numFrames = numFramesOf p
      ∧ 0 ≤ r.numFrames ∧ r.numFrames ≤ maxBufferSize ∧ maxBufferSize = 192000
      ∧ (envelopeLength p : Int) ≤ maxBufferSize
      ∧ (∀ i : Nat, maxBufferSize ≤ (i : Int) →
          r.signal i = m.signal i ∧ r.envelope i = m.envelope i
            ∧ r.envelopedSignal i = m.envelopedSignal i)
      ∧ (p.attackSec = 1 → p.decaySec = 1 → p.sustainSec = 1 → p.releaseSec = 1 →
          r.numFrames = 192000) := by
  have hn := numFramesOf_le p h
  have he := envelopeLength_le p h
  refine ⟨adjusted L p m, adjustSound_inDomain L p m h, rfl, numFramesOf_nonneg p h, hn,
    maxBufferSize_eq, he, ?_, ?_⟩
  · intro i hi
    have h1 : (numFramesOf p).toNat ≤ i := by omega
    have h2 : envelopeLength p ≤ i := by omega
    have h3 : ¬ i < (numFramesOf p).toNat := by omega
    refine ⟨signalOf_of_le L p m i h1, envelopeOf_of_le p _ i h2, ?_⟩
    simp only [adjusted, h3, if_false]
  · intro ha hd hs hr
    show numFramesOf p = 192000
    unfold numFramesOf
    simp only [samplesPerSec_cast, ha, hd, hs, hr]
    apply truncToInt_eq_of_mem_Ico <;> norm_num

/-- Witness of C2: the capacity scenario, all four durations `1.0`. -/
theorem adjustSound_within_capacity_witness :
    DurationsInDomain fullParams ∧
    ∃ r, adjustSound sampleLibc fullParams initialMem = Except.ok r
      ∧ r.numFrames = numFramesOf fullParams
      ∧ 0 ≤ r.numFrames ∧ r.numFrames ≤ maxBufferSize ∧ maxBufferSize = 192000
      ∧ (envelopeLength fullParams : Int) ≤ maxBufferSize
      ∧ (∀ i : Nat, maxBufferSize ≤ (i : Int) →
          r.signal i = initialMem.signal i ∧ r.envelope i = initialMem.envelope i
            ∧ r.envelopedSignal i = initialMem.envelopedSignal i)
      ∧ (fullParams.attackSec = 1 → fullParams.decaySec = 1 → fullParams.sustainSec = 1 →
          fullParams.releaseSec = 1 → r.numFrames = 192000) :=
  ⟨fullParams_inDomain,
    adjustSound_within_capacity sampleLibc fullParams initialMem fullParams_inDomain⟩

/-- C3, refuted as stated: with all four durations `1.01` the frame count is
`193920 > 192000`, and `adjustSound` neither rejects nor clamps: it runs the
signal loop into the store `signal[192000] = val`, one past the end of the
array. -/
theorem adjustSound_overflow_not_handled :
    numFramesOf overflowParams = 193920 ∧
    adjustSound sampleLibc overflowParams initialMem
      = Except.error ⟨Buffer.signal, 192000⟩ := by
  refine ⟨overflowParams_numFrames, ?_⟩
  have h : maxBufferSize < numFramesOf overflowParams := by
    rw [overflowParams_numFrames, maxBufferSize_eq]; norm_num
  rw [adjustSound_error sampleLibc overflowParams initialMem h, maxBufferSize_eq]
  rfl

/-- C3, amended. `adjustSound` has no handling of a frame count above capacity:
for every parameter set with `numFrames > maxBufferSize = 192000` it neither
rejects nor clamps but runs the signal loop up to the store
`signal[192000] = val`, past the end of the array. -/
theorem adjustSound_overflow_stores_past_signal (L : Libc) (p : Params) (m : Mem)
    (h : maxBufferSize < numFramesOf p) :
    adjustSound L p m = Except.error ⟨Buffer.signal, 192000⟩ := by
  rw [adjustSound_error L p m h, maxBufferSize_eq]
  rfl

/-- Witness of the amended C3: all four durations `1.25`, frame count `240000`. -/
theorem adjustSound_overflow_stores_past_signal_witness :
    maxBufferSize < numFramesOf longParams ∧
    adjustSound sampleLibc longParams initialMem = Except.error ⟨Buffer.signal, 192000⟩ :=
  ⟨by rw [longParams_numFrames, maxBufferSize_eq]; norm_num,
    adjustSound_overflow_stores_past_signal sampleLibc longParams initialMem
      (by rw [longParams_numFrames, maxBufferSize_eq]; norm_num)⟩

/-- C4. For every frequency in `[0, 1000]`, every wave type and every `k` below
the frame count of a completed `adjustSound`, the phase used for sample `k` lies
in `[0, TWOPI)`, `signal[k]` is the value of the `switch` at that phase, and it
lies in `[-1, 1]`; for the sine this uses that `sinf` maps into `[-1, 1]`, for
the noise that `rand()` returns a value in `[0, RAND_MAX]` with `RAND_MAX > 0`. -/
theorem adjustSound_signal_bounds (L : Libc) (p : Params) (m r : Mem) (k : Nat)
    (hf0 : 0 ≤ p.frequency) (hf1 : p.frequency ≤ 1000)
    (hsin : ∀ x : ℚ, 0 ≤ x → x < TWOPI → -1 ≤ L.sinf x ∧ L.sinf x ≤ 1)
    (hmax : 0 < L.RAND_MAX) (hrand : ∀ n, 0 ≤ L.rand n ∧ L.rand n ≤ L.RAND_MAX)
    (hrun : adjustSound L p m = Except.ok r) (hk : (k : Int) < r.numFrames) :
    (0 ≤ phaseAt (incrOf p) k ∧ phaseAt (incrOf p) k < TWOPI)
      ∧ r.signal k = (waveValue L p.waveType (phaseAt (incrOf p) k)
          (m.randCalls + k * drawsPerSample p.waveType)).1
      ∧ -1 ≤ r.signal k ∧ r.signal k ≤ 1 := by
  obtain ⟨_, _, rfl⟩ := (adjustSound_eq_ok_iff L p m r).mp hrun
  have hk2 : k < (numFramesOf p).toNat := by
    have : (k : Int) < numFramesOf p := hk
    omega
  have hi := incrOf_bounds p hf0 hf1
  have hph := phaseAt_bounds hi.1 hi.2.le k
  have hval : (adjusted L p m).signal k = (waveValue L p.waveType (phaseAt (incrOf p) k)
      (m.randCalls + k * drawsPerSample p.waveType)).1 := signalOf_of_lt L p m k hk2
  refine ⟨hph, hval, ?_⟩
  rw [hval]
  exact waveValue_bounds L p.waveType _ _ hsin hmax hrand hph.1 hph.2

/-- Witness of C4: the default parameters with the noise wave, sample `28799`. -/
theorem adjustSound_signal_bounds_witness :
    ∃ r, adjustSound sampleLibc { defaultParams with waveType := WaveType.WAVETYPE_NOISE }
        initialMem = Except.ok r
      ∧ ((28799 : Nat) : Int) < r.numFrames
      ∧ (0 ≤ phaseAt (incrOf defaultParams) 28799
          ∧ phaseAt (incrOf defaultParams) 28799 < TWOPI)
      ∧ -1 ≤ r.signal 28799 ∧ r.signal 28799 ≤ 1 := by
  have hd : DurationsInDomain { defaultParams with waveType := WaveType.WAVETYPE_NOISE } :=
    defaultParams_inDomain
  have hn : numFramesOf { defaultParams with waveType := WaveType.WAVETYPE_NOISE }
      = 28800 := by
    unfold numFramesOf
    simp only [samplesPerSec_cast, defaultParams]
    apply truncToInt_eq_of_mem_Ico <;> norm_num
  have hrun := adjustSound_inDomain sampleLibc _ initialMem hd
  have hk : ((28799 : Nat) : Int) < (adjusted sampleLibc
      { defaultParams with waveType := WaveType.WAVETYPE_NOISE } initialMem).numFrames := by
    show ((28799 : Nat) : Int) < numFramesOf _
    rw [hn]; norm_num
  have h := adjustSound_signal_bounds sampleLibc
    { defaultParams with waveType := WaveType.WAVETYPE_NOISE } initialMem _ 28799
    (by simp only [defaultParams]; norm_num) (by simp only [defaultParams]; norm_num)
    (fun x _ _ => sampleLibc_sinf_bounds x) (by simp only [sampleLibc]; norm_num)
    sampleLibc_rand_bounds hrun hk
  exact ⟨_, hrun, hk, h.1, h.2.2⟩

/-- C5. For `sustainLevel` in `[0, 1]` and whatever the stage frame counts, in
the envelope of a completed `adjustSound` consecutive samples of the attack
stage do not decrease, consecutive samples of the decay stage and of the release
stage do not increase, and every sample of the sustain stage is `sustainLevel`. -/
theorem adjustSound_envelope_monotone (L : Libc) (p : Params) (m r : Mem)
    (hs0 : 0 ≤ p.sustainLevel) (hs1 : p.sustainLevel ≤ 1)
    (hrun : adjustSound L p m = Except.ok r) :
    (∀ i : Nat, i + 1 < (attackFramesOf p).toNat → r.envelope i ≤ r.envelope (i + 1))
      ∧ (∀ i : Nat, i + 1 < (decayFramesOf p).toNat →
          r.envelope ((attackFramesOf p).toNat + (i + 1))
            ≤ r.envelope ((attackFramesOf p).toNat + i))
      ∧ (∀ i : Nat, i < (sustainFramesOf p).toNat →
          r.envelope ((attackFramesOf p).toNat + (decayFramesOf p).toNat + i)
            = p.sustainLevel)
      ∧ (∀ i : Nat, i + 1 < (releaseFramesOf p).toNat →
          r.envelope ((attackFramesOf p).toNat + (decayFramesOf p).toNat
              + (sustainFramesOf p).toNat + (i + 1))
            ≤ r.envelope ((attackFramesOf p).toNat + (decayFramesOf p).toNat
              + (sustainFramesOf p).toNat + i)) := by
  obtain ⟨_, _, rfl⟩ := (adjustSound_eq_ok_iff L p m r).mp hrun
  refine ⟨?_, ?_, ?_, ?_⟩
  · intro i hi
    show envelopeOf p m.envelope i ≤ envelopeOf p m.envelope (i + 1)
    rw [envelopeOf_attack p _ i (by omega), envelopeOf_attack p _ (i + 1) hi]
    exact attackVal_le_succ _ i hi
  · intro i hi
    show envelopeOf p m.envelope _ ≤ envelopeOf p m.envelope _
    rw [envelopeOf_decay p _ i (by omega), envelopeOf_decay p _ (i + 1) hi]
    exact decayVal_succ_le _ _ i hi hs1
  · intro i hi
    exact envelopeOf_sustain p _ i hi
  · intro i hi
    show envelopeOf p m.envelope _ ≤ envelopeOf p m.envelope _
    rw [envelopeOf_release p _ i (by omega), envelopeOf_release p _ (i + 1) hi]
    exact releaseVal_succ_le _ _ i hi hs0

/-- Witness of C5: the default parameters (`sustainLevel = 0.5`). -/
theorem adjustSound_envelope_monotone_witness :
    (0 ≤ defaultParams.sustainLevel ∧ defaultParams.sustainLevel ≤ 1) ∧
    ∃ r, adjustSound sampleLibc defaultParams initialMem = Except.ok r
      ∧ (∀ i : Nat, i + 1 < (attackFramesOf defaultParams).toNat →
          r.envelope i ≤ r.envelope (i + 1))
      ∧ (∀ i : Nat, i < (sustainFramesOf defaultParams).toNat →
          r.envelope ((attackFramesOf defaultParams).toNat
            + (decayFramesOf defaultParams).toNat + i) = defaultParams.sustainLevel) := by
  have hs : 0 ≤ defaultParams.sustainLevel ∧ defaultParams.sustainLevel ≤ 1 := by
    simp only [defaultParams]; norm_num
  have hrun := adjustSound_inDomain sampleLibc defaultParams initialMem defaultParams_inDomain
  have h := adjustSound_envelope_monotone sampleLibc defaultParams initialMem _ hs.1 hs.2 hrun
  exact ⟨hs, _, hrun, h.1, h.2.2.1⟩

/-- C6. After a completed `adjustSound`, `envelopedSignal[i]` is exactly
`signal[i] * envelope[i]` for every `0 <= i < numFrames`, and the combining step
(the third of the three steps of `adjustSound`) leaves `signal` and `envelope`
as the first two steps produced them. -/
theorem adjustSound_enveloped_product (L : Libc) (p : Params) (m r : Mem)
    (hrun : adjustSound L p m = Except.ok r) :
    ∃ m1 m2, generateSignal L p m = Except.ok m1 ∧ buildEnvelope p m1 = Except.ok m2
      ∧ applyEnvelope m2 = Except.ok r
      ∧ r.signal = m2.signal ∧ r.envelope = m2.envelope
      ∧ ∀ i : Nat, (i : Int) < r.numFrames →
          r.envelopedSignal i = r.signal i * r.envelope i := by
  obtain ⟨hn, he, rfl⟩ := (adjustSound_eq_ok_iff L p m r).mp hrun
  refine ⟨_, _, generateSignal_ok L p m hn, buildEnvelope_ok p _ he, ?_, rfl, rfl, ?_⟩
  · rw [applyEnvelope_ok _ hn]
    simp only [adjusted]
    congr 2
    funext j
    simp only [envelopedAfter, Nat.zero_add, Nat.zero_le, true_and]
  · intro i hi
    have hi2 : i < (numFramesOf p).toNat := by
      have : (i : Int) < numFramesOf p := hi
      omega
    simp only [adjusted, hi2, if_true]

/-- Witness of C6: the default parameters. -/
theorem adjustSound_enveloped_product_witness :
    ∃ r, adjustSound sampleLibc defaultParams initialMem = Except.ok r
      ∧ ∀ i : Nat, (i : Int) < r.numFrames →
          r.envelopedSignal i = r.signal i * r.envelope i := by
  have hrun := adjustSound_inDomain sampleLibc defaultParams initialMem defaultParams_inDomain
  obtain ⟨_, _, _, _, _, _, _, h⟩ :=
    adjustSound_enveloped_product sampleLibc defaultParams initialMem _ hrun
  exact ⟨_, hrun, h⟩

/-- C7. For the sine wave, every frequency `f` in `[0, 1000]` and every `k` below
the frame count of a completed `adjustSound`, the phase accumulated before sample
`k` is `(k * incr) mod TWOPI` with `incr = TWOPI * f / 48000`, and `signal[k]` is
the closed form `sin((TWOPI * f * k / 48000) mod TWOPI)`, in exact arithmetic. -/
theorem adjustSound_sine_closed_form (L : Libc) (p : Params) (m r : Mem) (k : Nat)
    (hw : p.waveType = WaveType.WAVETYPE_SIN)
    (hf0 : 0 ≤ p.frequency) (hf1 : p.frequency ≤ 1000)
    (hrun : adjustSound L p m = Except.ok r) (hk : (k : Int) < r.numFrames) :
    incrOf p = TWOPI * p.frequency / 48000
      ∧ phaseAt (incrOf p) k = fmod ((k : ℚ) * incrOf p) TWOPI
      ∧ r.signal k = L.sinf (phaseAt (incrOf p) k)
      ∧ r.signal k = L.sinf (fmod (TWOPI * p.frequency * (k : ℚ) / 48000) TWOPI)
      ∧ r.signal k = sineClosedForm L p.frequency k := by
  obtain ⟨_, _, rfl⟩ := (adjustSound_eq_ok_iff L p m r).mp hrun
  have hk2 : k < (numFramesOf p).toNat := by
    have : (k : Int) < numFramesOf p := hk
    omega
  have hi := incrOf_bounds p hf0 hf1
  have hph := phaseAt_eq_fmod hi.1 hi.2.le k
  have hincr : incrOf p = TWOPI * p.frequency / 48000 := by
    unfold incrOf; rw [samplesPerSec_cast]
  have hval : (adjusted L p m).signal k = L.sinf (phaseAt (incrOf p) k) := by
    show signalOf L p m k = _
    rw [signalOf_of_lt L p m k hk2, hw]
    rfl
  have harg : (k : ℚ) * incrOf p = TWOPI * p.frequency * (k : ℚ) / 48000 := by
    rw [hincr]; ring
  refine ⟨hincr, hph, hval, ?_, ?_⟩
  · rw [hval, hph, harg]
  · rw [hval, hph, harg, sineClosedForm, samplesPerSec_cast]

/-- Witness of C7: the default parameters (sine at 440 Hz), sample `28799`. -/
theorem adjustSound_sine_closed_form_witness :
    ∃ r, adjustSound sampleLibc defaultParams initialMem = Except.ok r
      ∧ ((28799 : Nat) : Int) < r.numFrames
      ∧ phaseAt (incrOf defaultParams) 28799
          = fmod (((28799 : Nat) : ℚ) * incrOf defaultParams) TWOPI
      ∧ r.signal 28799 = sineClosedForm sampleLibc defaultParams.frequency 28799 := by
  have hn : numFramesOf defaultParams = 28800 := by
    unfold numFramesOf
    simp only [samplesPerSec_cast, defaultParams]
    apply truncToInt_eq_of_mem_Ico <;> norm_num
  have hrun := adjustSound_inDomain sampleLibc defaultParams initialMem defaultParams_inDomain
  have hk : ((28799 : Nat) : Int)
      < (adjusted sampleLibc defaultParams initialMem).numFrames := by
    show ((28799 : Nat) : Int) < numFramesOf _
    rw [hn]; norm_num
  have h := adjustSound_sine_closed_form sampleLibc defaultParams initialMem _ 28799 rfl
    (by simp only [defaultParams]; norm_num) (by simp only [defaultParams]; norm_num) hrun hk
  exact ⟨_, hrun, hk, h.2.1, h.2.2.2.2⟩

end SoundGenerator
